import Mathlib

/-!
Verification development for the legal-text segmenter in
`legal_text_processor.py` (class `LegalTextParser`).

The Python code works line-by-line over `contenido.split('\n')` using a
fixed table of regular expressions.  Every definition below is a shallow
embedding of the corresponding Python function, translated directly from
the source; regular expressions are embedded as hand-written matchers
that follow the regex's backtracking semantics on a per-line basis
(patterns are anchored with `^` and applied via `.match`, i.e. as prefix
matchers).  Case-insensitive matching (`re.IGNORECASE`) is embedded via
an explicit upper-casing function covering the ASCII letters plus the
accented Spanish letters that occur in the patterns and documents.
-/

set_option maxRecDepth 10000

/-- Python `\s` / `str.strip()` whitespace, restricted to the ASCII
whitespace characters (space, tab, newline, carriage return, vertical
tab, form feed). -/
def pySpace (c : Char) : Bool :=
  c == ' ' || c == '\t' || c == '\n' || c == '\r' || c == '\x0b' || c == '\x0c'

/-- Upper-casing used to embed `re.IGNORECASE`: ASCII letters plus the
accented Spanish letters appearing in the parser's patterns. -/
def upperEs (c : Char) : Char :=
  if 'a' ≤ c ∧ c ≤ 'z' then Char.ofNat (c.toNat - 32)
  else if c = 'á' then 'Á'
  else if c = 'é' then 'É'
  else if c = 'í' then 'Í'
  else if c = 'ó' then 'Ó'
  else if c = 'ú' then 'Ú'
  else if c = 'ñ' then 'Ñ'
  else if c = 'ü' then 'Ü'
  else c

/-- Test `startsWithCI pat s`: `s` starts with the pattern `pat`
case-insensitively (patterns are written upper-case). -/
def startsWithCI : List Char → List Char → Bool
  | [], _ => true
  | _ :: _, [] => false
  | p :: ps, c :: cs => (upperEs c == p) && startsWithCI ps cs

/-- Case-sensitive literal match at the start of `s` (for the patterns
compiled without `re.IGNORECASE`). -/
def startsWithCS : List Char → List Char → Bool
  | [], _ => true
  | _ :: _, [] => false
  | p :: ps, c :: cs => (c == p) && startsWithCS ps cs

/-- The Roman-numeral character class `[IVXLCDM]` (case-sensitive). -/
def romanChars : List Char := ['I', 'V', 'X', 'L', 'C', 'D', 'M']

/-- Class `[IVXLCDM]` under `re.IGNORECASE`. -/
def isRomanCI (c : Char) : Bool := romanChars.contains (upperEs c)

/-- Python `str.strip()` on a character list. -/
def pystrip_chars (l : List Char) : List Char :=
  ((l.dropWhile pySpace).reverse.dropWhile pySpace).reverse

/-- Python `str.strip()`. -/
def pystrip (s : String) : String := ⟨pystrip_chars s.data⟩

/-- Auxiliary state machine for `re.sub(r'\s+', ' ', ·)`: the flag
records whether the previous character was part of a whitespace run. -/
def collapse_go : List Char → Bool → List Char
  | [], _ => []
  | c :: rest, prevSp =>
    if pySpace c then
      if prevSp then collapse_go rest true else ' ' :: collapse_go rest true
    else c :: collapse_go rest false

/-- Embeds `re.sub(r'\s+', ' ', ·)`: collapse every whitespace run to one space. -/
def collapse (l : List Char) : List Char := collapse_go l false

/-- Embeds `re.sub(r'[–—]', '-', ·)` applied characterwise. -/
def dashFix (c : Char) : Char := if c = '–' ∨ c = '—' then '-' else c

/-- Embeds `LegalTextParser.limpiar_texto`: strip, collapse whitespace runs to a
single space, then normalise en/em dashes to `-`. -/
def limpiar_texto (s : String) : String :=
  ⟨(collapse (pystrip_chars s.data)).map dashFix⟩

/-- Auxiliary recursion for `str.split('\n')`. -/
def split_nl_go : List Char → List Char → List (List Char)
  | [], acc => [acc.reverse]
  | '\n' :: rest, acc => acc.reverse :: split_nl_go rest []
  | c :: rest, acc => split_nl_go rest (c :: acc)

/-- Python `contenido.split('\n')`. -/
def split_nl (s : String) : List String := (split_nl_go s.data []).map String.mk

/-- Python list slice `l[a:b]` for natural indices. -/
def py_slice (l : List String) (a b : Nat) : List String := (l.drop a).take (b - a)

/-- Python `' '.join(l)`. -/
def join_sp (l : List String) : String := String.intercalate " " l

/-- Python `'\n'.join(l)`. -/
def join_nl (l : List String) : String := String.intercalate "\n" l

/-- Python `str.rstrip('.')`. -/
def rstripDot (s : String) : String :=
  ⟨(s.data.reverse.dropWhile (· == '.')).reverse⟩

/-- The dash alternatives `[-–—]`. -/
def dashes : List Char := ['-', '–', '—']

/-- The shared regex tail `\s*[-–—]?\s*` preceding the final `(.*)`
capture of the `articulo`, `fraccion` and `transitorio_item` patterns. -/
def sepTail (r : List Char) : List Char :=
  let r2 := r.dropWhile pySpace
  let r3 := match r2 with
    | c :: t => if dashes.contains c then t else r2
    | [] => r2
  r3.dropWhile pySpace

/-- The optional period `\.?`. -/
def optDot (r : List Char) : List Char :=
  match r with
  | '.' :: t => t
  | _ => r

/-!  ## The regex table (`LegalTextParser.__init__`, `self.patterns`)  -/

/-- Pattern `capitulo`:
`^(TÍTULO|CAPÍTULO)\s+([IVXLCDM]+|[0-9]+|PRIMERO|SEGUNDO|TERCERO|ÚNICO).*?$`
with `re.IGNORECASE`, used via `.match` (anchored at line start).
Since `.*?$` always succeeds on a single line, the match succeeds iff the
keyword, the whitespace, and one numbering alternative match; the
`[IVXLCDM]+` alternative succeeds iff the first character after the
whitespace is in the class. -/
def capituloMatch (s : List Char) : Bool :=
  match (if startsWithCI "TÍTULO".data s then some (s.drop 6)
         else if startsWithCI "CAPÍTULO".data s then some (s.drop 8)
         else none) with
  | none => false
  | some r =>
    if r.takeWhile pySpace = [] then false
    else
      let r2 := r.dropWhile pySpace
      (match r2 with
       | c :: _ => isRomanCI c || c.isDigit
       | [] => false)
      || startsWithCI "PRIMERO".data r2 || startsWithCI "SEGUNDO".data r2
      || startsWithCI "TERCERO".data r2 || startsWithCI "ÚNICO".data r2

/-- Pattern `articulo`:
`^Artículo\s+([0-9]+º?|ÚNICO|Único)\.?\s*[-–—]?\s*(.*)` (case-sensitive),
returning the two capture groups on success. -/
def articuloMatch (s : List Char) : Option (List Char × List Char) :=
  if startsWithCS "Artículo".data s then
    let r := s.drop 8
    if r.takeWhile pySpace = [] then none
    else
      let r2 := r.dropWhile pySpace
      if (r2.headD ' ').isDigit then
        let ds := r2.takeWhile Char.isDigit
        match r2.drop ds.length with
        | 'º' :: r4 => some (ds ++ ['º'], sepTail (optDot r4))
        | r3 => some (ds, sepTail (optDot r3))
      else if startsWithCS "ÚNICO".data r2 then
        some ("ÚNICO".data, sepTail (optDot (r2.drop 5)))
      else if startsWithCS "Único".data r2 then
        some ("Único".data, sepTail (optDot (r2.drop 5)))
      else none
  else none

/-- Digit alternative of the `fraccion` pattern: `[0-9]+\)` then the
mandatory `\.`. -/
def fraccionDigits (s : List Char) : Option (List Char × List Char) :=
  let ds := s.takeWhile Char.isDigit
  if ds ≠ [] then
    match s.drop ds.length with
    | ')' :: '.' :: r => some (ds ++ [')'], sepTail r)
    | _ => none
  else none

/-- Pattern `fraccion`:
`^([IVXLCDM]+|[a-z]\)|[0-9]+\))\.\s*[-–—]?\s*(.*)` (case-sensitive).
For the `[IVXLCDM]+` alternative the mandatory `\.` can only follow the
full maximal Roman run (every shorter prefix is followed by another
Roman character), so backtracking reduces to checking the character
after the run. -/
def fraccionMatch (s : List Char) : Option (List Char × List Char) :=
  let rs := s.takeWhile (fun c => romanChars.contains c)
  if rs ≠ [] then
    match s.drop rs.length with
    | '.' :: r => some (rs, sepTail r)
    | _ => none
  else
    match s with
    | c :: ')' :: '.' :: r =>
      if 'a' ≤ c ∧ c ≤ 'z' then some ([c, ')'], sepTail r) else fraccionDigits s
    | _ => fraccionDigits s

/-- Pattern `transitorios`: `^(TRANSITORIOS|ARTÍCULOS?\s+TRANSITORIOS)`
with `re.IGNORECASE`. -/
def transitoriosMatch (s : List Char) : Bool :=
  startsWithCI "TRANSITORIOS".data s ||
  (startsWithCI "ARTÍCULO".data s &&
    (let r := s.drop 8
     (match r with
      | c :: t =>
        (upperEs c == 'S') && t.takeWhile pySpace ≠ [] &&
          startsWithCI "TRANSITORIOS".data (t.dropWhile pySpace)
      | [] => false)
     || (r.takeWhile pySpace ≠ [] &&
           startsWithCI "TRANSITORIOS".data (r.dropWhile pySpace))))

/-- The ordinal-word alternatives of the `transitorio_item` pattern, in
the regex's alternation order. -/
def t_item_words : List String :=
  ["PRIMERO", "SEGUNDO", "TERCERO", "CUARTO", "QUINTO", "SEXTO",
   "SÉPTIMO", "OCTAVO", "NOVENO", "DÉCIMO"]

/-- Pattern `transitorio_item`:
`^(PRIMERO|…|DÉCIMO|[0-9]+º?|[IVXLCDM]+)\.?\s*[-–—]?\s*(.*)` with
`re.IGNORECASE`; group 1 is returned as matched in the input (case
preserved). -/
def transitorioItemMatch (s : List Char) : Option (List Char × List Char) :=
  match t_item_words.find? (fun w => startsWithCI w.data s) with
  | some w => some (s.take w.data.length, sepTail (optDot (s.drop w.data.length)))
  | none =>
    if (s.headD ' ').isDigit then
      let ds := s.takeWhile Char.isDigit
      match s.drop ds.length with
      | 'º' :: r4 => some (ds ++ ['º'], sepTail (optDot r4))
      | r3 => some (ds, sepTail (optDot r3))
    else
      let rs := s.takeWhile isRomanCI
      if rs ≠ [] then some (rs, sepTail (optDot (s.drop rs.length)))
      else none

/-- The stop condition of `extraer_decreto`:
`re.search(r'^(LEY|CÓDIGO|CONSTITUCIÓN|REGLAMENTO|TÍTULO|CAPÍTULO)', linea, re.IGNORECASE)`. -/
def decretoStop (s : List Char) : Bool :=
  startsWithCI "LEY".data s || startsWithCI "CÓDIGO".data s ||
  startsWithCI "CONSTITUCIÓN".data s || startsWithCI "REGLAMENTO".data s ||
  startsWithCI "TÍTULO".data s || startsWithCI "CAPÍTULO".data s

/-- The title keyword test of `extraer_titulo`:
`re.search(r'^(LEY|CÓDIGO|CONSTITUCIÓN|REGLAMENTO)', linea, re.IGNORECASE)`. -/
def tituloKeyword (s : List Char) : Bool :=
  startsWithCI "LEY".data s || startsWithCI "CÓDIGO".data s ||
  startsWithCI "CONSTITUCIÓN".data s || startsWithCI "REGLAMENTO".data s

/-- A case-insensitive literal step of the filler-prefix pattern of
`extraer_titulo`. -/
def ciLit (w : String) (x : List Char) : Option (List Char) :=
  if startsWithCI w.data x then some (x.drop w.data.length) else none

/-- A mandatory-whitespace step `\s+` (greedy; the following literals
start with non-whitespace, so maximal consumption is exact). -/
def ws1 (x : List Char) : Option (List Char) :=
  if x.takeWhile pySpace = [] then none else some (x.dropWhile pySpace)

/-- Embeds `re.sub(r'^(LEY\s+DE\s+INGRESOS\s+DEL\s+|LEY\s+)', '', linea, flags=re.IGNORECASE)`:
the pattern is anchored at the string start, so at most one replacement
happens; the alternatives are tried in order. -/
def tituloSub (s : String) : String :=
  match (ciLit "LEY" s.data).bind ws1 |>.bind (ciLit "DE") |>.bind ws1
        |>.bind (ciLit "INGRESOS") |>.bind ws1 |>.bind (ciLit "DEL") |>.bind ws1 with
  | some r => ⟨r⟩
  | none =>
    match (ciLit "LEY" s.data).bind ws1 with
    | some r => ⟨r⟩
    | none => s

/-- Lower-case letters for Python `str.isupper`, over the embedded
alphabet (ASCII plus accented Spanish vowels and ñ/ü). -/
def isLowerEs (c : Char) : Bool :=
  ('a' ≤ c && c ≤ 'z') || c == 'á' || c == 'é' || c == 'í' || c == 'ó' ||
  c == 'ú' || c == 'ñ' || c == 'ü'

/-- Upper-case letters over the embedded alphabet. -/
def isUpperEs (c : Char) : Bool :=
  ('A' ≤ c && c ≤ 'Z') || c == 'Á' || c == 'É' || c == 'Í' || c == 'Ó' ||
  c == 'Ú' || c == 'Ñ' || c == 'Ü'

/-- Cased characters over the embedded alphabet. -/
def casedEs (c : Char) : Bool := isLowerEs c || isUpperEs c

/-- Python `str.isupper()`: at least one cased character and no
lower-case cased character. -/
def isupperPy (l : List Char) : Bool := l.any casedEs && !(l.any isLowerEs)

/-!  ## Data model (the Pydantic models)

The Pydantic `str_strip_whitespace` config is a no-op on every field the
parser constructs (labels and bodies are built from stripped lines or
`limpiar_texto`, markers from whitespace-free capture groups), so it is
not modelled. -/

/-- Model `Fraccion`. -/
structure Fraccion where
  fraccion : String
  texto : String
deriving DecidableEq, Repr

/-- Model `Articulo`. -/
structure Articulo where
  articulo : Nat
  texto : String
  fracciones : List Fraccion
deriving DecidableEq, Repr

/-- Model `Capitulo`. -/
structure Capitulo where
  capitulo : String
  articulos : List Articulo
deriving DecidableEq, Repr

/-- Model `Transitorio`. -/
structure Transitorio where
  articulo : String
  texto : String
deriving DecidableEq, Repr

/-!  ## `parsear_fracciones`  -/

/-- Python string truthiness of the optional current marker
(`if current_fraccion …`: `None` and `""` are falsy). -/
def truthyStr : Option String → Bool
  | some f => f ≠ ""
  | none => false

/-- The "save previous fracción" step of `parsear_fracciones`
(`if current_fraccion and current_text: fracciones.append(...)`). -/
def frac_flush (cur : Option String) (curT : List String) : List Fraccion :=
  match cur with
  | some f => if f ≠ "" ∧ curT ≠ [] then [⟨f, limpiar_texto (join_sp curT)⟩] else []
  | none => []

/-- The line loop of `parsear_fracciones` over the lines of `texto`,
with the mutable `current_fraccion` / `current_text` state made
explicit. -/
def frac_loop : List String → Option String → List String → List Fraccion
  | [], cur, curT => frac_flush cur curT
  | l :: rest, cur, curT =>
    let line := pystrip l
    if line = "" then frac_loop rest cur curT
    else
      match fraccionMatch line.data with
      | some (g1, g2) =>
        frac_flush cur curT ++
          frac_loop rest (some (rstripDot ⟨g1⟩)) (if g2 ≠ [] then [⟨g2⟩] else [])
      | none =>
        if truthyStr cur then frac_loop rest cur (curT ++ [line])
        else frac_loop rest cur curT

/-- Embeds `LegalTextParser.parsear_fracciones`. -/
def parsear_fracciones (texto : String) : List Fraccion :=
  frac_loop (split_nl texto) none []

/-!  ## `parsear_articulos`  -/

/-- Embeds `int(...)` with the fallback of `parsear_articulos`: strip the
ordinal marks `º`/`°` (`str.replace` removes every occurrence), then
convert if the result is purely numeric, else default to `1`. -/
def articulo_num (g1 : List Char) : Nat :=
  let s := g1.filter (fun c => c ≠ 'º' ∧ c ≠ '°')
  if s ≠ [] ∧ s.all Char.isDigit then
    s.foldl (fun a c => a * 10 + (c.toNat - 48)) 0
  else 1

/-- Construction of one `Articulo` from the accumulated `current_text`:
parse fracciones from the joined text; if any exist, the article body is
only the accumulated lines before the first line matching the
`fraccion` pattern. -/
def mk_articulo (n : Nat) (curT : List String) : Articulo :=
  let texto_completo := join_nl curT
  let fracciones := parsear_fracciones texto_completo
  let texto_articulo :=
    if fracciones ≠ [] then
      match curT.findIdx? (fun t => (fraccionMatch (pystrip t).data).isSome) with
      | some i => join_sp (curT.take i)
      | none => join_sp curT
    else join_sp curT
  ⟨n, limpiar_texto texto_articulo, fracciones⟩

/-- The "save previous artículo" step of `parsear_articulos`
(`if current_articulo is not None and current_text: …`). -/
def art_flush (cur : Option Nat) (curT : List String) : List Articulo :=
  match cur with
  | some n => if curT ≠ [] then [mk_articulo n curT] else []
  | none => []

/-- The line loop of `parsear_articulos`: skip blank lines, break on a
chapter header (the final save still runs after a break), start a new
article on an `articulo` match, otherwise accumulate body lines.  (The
second `capitulo` check inside the accumulation branch of the Python
loop is unreachable — the loop already broke on such lines — and is
therefore not represented.) -/
def art_loop : List String → Option Nat → List String → List Articulo
  | [], cur, curT => art_flush cur curT
  | l :: rest, cur, curT =>
    let line := pystrip l
    if line = "" then art_loop rest cur curT
    else if capituloMatch line.data then art_flush cur curT
    else
      match articuloMatch line.data with
      | some (g1, g2) =>
        art_flush cur curT ++
          art_loop rest (some (articulo_num g1)) (if g2 ≠ [] then [⟨g2⟩] else [])
      | none =>
        match cur with
        | some _ => art_loop rest cur (curT ++ [line])
        | none => art_loop rest cur curT

/-- Embeds `LegalTextParser.parsear_articulos` on
`contenido.split('\n')[inicio:fin]`. -/
def parsear_articulos (contenido : String) (inicio fin : Nat) : List Articulo :=
  art_loop (py_slice (split_nl contenido) inicio fin) none []

/-!  ## `parsear_capitulos`  -/

/-- The `enumerate` scan collecting `(i, line.strip())` for every line
whose stripped form matches the `capitulo` pattern. -/
def cap_pos_go : Nat → List String → List (Nat × String)
  | _, [] => []
  | i, l :: rest =>
    if capituloMatch (pystrip l).data then
      (i, pystrip l) :: cap_pos_go (i + 1) rest
    else cap_pos_go (i + 1) rest

/-- List `capitulo_positions` of `parsear_capitulos`. -/
def capitulo_positions (lines : List String) : List (Nat × String) :=
  cap_pos_go 0 lines

/-- The transitory-block search of `parsear_capitulos`: the first
`j ∈ [pos, len)` whose stripped line matches the `transitorios`
pattern. -/
def scan_trans (lines : List String) (pos : Nat) : Option Nat :=
  ((lines.drop pos).findIdx? (fun l => transitoriosMatch (pystrip l).data)).map
    (pos + ·)

/-- The per-chapter loop of `parsear_capitulos`: the end boundary is the
next chapter's position, or — for the last chapter — the transitory
block position if found from `pos` onwards, else the number of lines;
chapters whose article list is empty are dropped. -/
def cap_go (contenido : String) (lines : List String) :
    List (Nat × String) → List Capitulo
  | [] => []
  | (pos, titulo) :: rest =>
    let fin := match rest with
      | (nxt, _) :: _ => nxt
      | [] => match scan_trans lines pos with
        | some j => j
        | none => lines.length
    let arts := parsear_articulos contenido (pos + 1) fin
    (if arts ≠ [] then [⟨titulo, arts⟩] else []) ++ cap_go contenido lines rest

/-- Embeds `LegalTextParser.parsear_capitulos`. -/
def parsear_capitulos (contenido : String) : List Capitulo :=
  let lines := split_nl contenido
  let ps := capitulo_positions lines
  if ps = [] then
    let arts := parsear_articulos contenido 0 lines.length
    if arts ≠ [] then [⟨"CAPÍTULO ÚNICO", arts⟩] else []
  else cap_go contenido lines ps

/-!  ## `parsear_transitorios`  -/

/-- The "save previous transitorio" step
(`if current_transitorio and current_text: …`). -/
def trans_flush (cur : Option String) (curT : List String) : List Transitorio :=
  match cur with
  | some f => if f ≠ "" ∧ curT ≠ [] then [⟨f, limpiar_texto (join_sp curT)⟩] else []
  | none => []

/-- The line loop of `parsear_transitorios` over the lines following the
transitory header. -/
def trans_loop : List String → Option String → List String → List Transitorio
  | [], cur, curT => trans_flush cur curT
  | l :: rest, cur, curT =>
    let line := pystrip l
    if line = "" then trans_loop rest cur curT
    else
      match transitorioItemMatch line.data with
      | some (g1, g2) =>
        trans_flush cur curT ++
          trans_loop rest (some (rstripDot ⟨g1⟩)) (if g2 ≠ [] then [⟨g2⟩] else [])
      | none =>
        if truthyStr cur then trans_loop rest cur (curT ++ [line])
        else trans_loop rest cur curT

/-- Embeds `LegalTextParser.parsear_transitorios`. -/
def parsear_transitorios (contenido : String) : List Transitorio :=
  let lines := split_nl contenido
  match lines.findIdx? (fun l => transitoriosMatch (pystrip l).data) with
  | none => []
  | some i => trans_loop (lines.drop (i + 1)) none []

/-!  ## `extraer_decreto` and `extraer_titulo`  -/

/-- The accumulation loop of `extraer_decreto`: skip blank lines, stop
before a structural-header line, append otherwise, and stop after the
append once the accumulator holds more than 10 lines. -/
def dec_loop : List String → List String → List String
  | [], acc => acc
  | l :: rest, acc =>
    let line := pystrip l
    if line = "" then dec_loop rest acc
    else if decretoStop line.data then acc
    else
      let acc2 := acc ++ [line]
      if acc2.length > 10 then acc2 else dec_loop rest acc2

/-- The accumulated `decreto_lines` of `extraer_decreto`. -/
def decreto_lines (contenido : String) : List String :=
  dec_loop (split_nl contenido) []

/-- Embeds `LegalTextParser.extraer_decreto`. -/
def extraer_decreto (contenido : String) : Option String :=
  let dl := decreto_lines contenido
  if dl ≠ [] then some (join_sp dl) else none

/-- Embeds `LegalTextParser.extraer_titulo`. -/
def extraer_titulo (contenido : String) : String :=
  let lines := split_nl contenido
  match lines.find? (fun l => tituloKeyword (pystrip l).data) with
  | some l => limpiar_texto (tituloSub (pystrip l))
  | none =>
    match (lines.take 10).find?
        (fun l => (pystrip l).data.length > 10 && isupperPy (pystrip l).data) with
    | some l => limpiar_texto (pystrip l)
    | none => "Título no identificado"

/-!  ## Instrumented variants

The following variants are the same folds with a ghost line counter:
each emitted unit is paired with the index of its header line (absolute
document index for articles and chapters, index within the article's
text for fracciones).  Projection lemmas below show that dropping the
indices recovers the parser's output. -/

/-- Index-carrying variant of `frac_flush`. -/
def frac_flush_idx : Option (Nat × String) → List String → List (Nat × Fraccion)
  | some (h, f), curT =>
    if f ≠ "" ∧ curT ≠ [] then [(h, ⟨f, limpiar_texto (join_sp curT)⟩)] else []
  | none, _ => []

/-- Index-carrying variant of `frac_loop`; `k` is the index of the next
line to be scanned. -/
def frac_loop_idx :
    List String → Nat → Option (Nat × String) → List String → List (Nat × Fraccion)
  | [], _, cur, curT => frac_flush_idx cur curT
  | l :: rest, k, cur, curT =>
    let line := pystrip l
    if line = "" then frac_loop_idx rest (k + 1) cur curT
    else
      match fraccionMatch line.data with
      | some (g1, g2) =>
        frac_flush_idx cur curT ++
          frac_loop_idx rest (k + 1) (some (k, rstripDot ⟨g1⟩))
            (if g2 ≠ [] then [⟨g2⟩] else [])
      | none =>
        if truthyStr (cur.map Prod.snd) then frac_loop_idx rest (k + 1) cur (curT ++ [line])
        else frac_loop_idx rest (k + 1) cur curT

/-- Variant of `parsear_fracciones` with header line indices. -/
def parsear_fracciones_idx (texto : String) : List (Nat × Fraccion) :=
  frac_loop_idx (split_nl texto) 0 none []

/-- Index-carrying variant of `art_flush`. -/
def art_flush_idx : Option (Nat × Nat) → List String → List (Nat × Articulo)
  | some (h, n), curT => if curT ≠ [] then [(h, mk_articulo n curT)] else []
  | none, _ => []

/-- Index-carrying variant of `art_loop`. -/
def art_loop_idx :
    List String → Nat → Option (Nat × Nat) → List String → List (Nat × Articulo)
  | [], _, cur, curT => art_flush_idx cur curT
  | l :: rest, k, cur, curT =>
    let line := pystrip l
    if line = "" then art_loop_idx rest (k + 1) cur curT
    else if capituloMatch line.data then art_flush_idx cur curT
    else
      match articuloMatch line.data with
      | some (g1, g2) =>
        art_flush_idx cur curT ++
          art_loop_idx rest (k + 1) (some (k, articulo_num g1))
            (if g2 ≠ [] then [⟨g2⟩] else [])
      | none =>
        match cur with
        | some _ => art_loop_idx rest (k + 1) cur (curT ++ [line])
        | none => art_loop_idx rest (k + 1) cur curT

/-- Variant of `parsear_articulos` with absolute header line indices (the slice
starts at document line `inicio`). -/
def parsear_articulos_idx (contenido : String) (inicio fin : Nat) :
    List (Nat × Articulo) :=
  art_loop_idx (py_slice (split_nl contenido) inicio fin) inicio none []

/-- Index-carrying variant of `cap_go`: each kept chapter is paired with
its header's document line index. -/
def cap_go_idx (contenido : String) (lines : List String) :
    List (Nat × String) → List (Nat × Capitulo)
  | [] => []
  | (pos, titulo) :: rest =>
    let fin := match rest with
      | (nxt, _) :: _ => nxt
      | [] => match scan_trans lines pos with
        | some j => j
        | none => lines.length
    let arts := parsear_articulos contenido (pos + 1) fin
    (if arts ≠ [] then [(pos, ⟨titulo, arts⟩)] else []) ++ cap_go_idx contenido lines rest

/-- The line range handed to the article segmenter for each chapter of
`parsear_capitulos` (start line after the header, end boundary as
computed by `cap_go`), as a half-open interval `[start, fin)`. -/
def chapter_extents (lines : List String) : List (Nat × String) → List (Nat × Nat)
  | [] => []
  | (pos, _) :: rest =>
    (pos + 1,
      match rest with
      | (nxt, _) :: _ => nxt
      | [] => match scan_trans lines pos with
        | some j => j
        | none => lines.length) :: chapter_extents lines rest

/-!  ## Spec-side definitions

These two definitions follow the wording of the specification (not the
code); they exist to be compared against the code-derived definitions
above. -/

/-- Case-insensitive equality of a token against an upper-case word. -/
def ciEqWord (w : String) (tok : List Char) : Bool :=
  tok.map upperEs == w.data

/-- Chapter-header classification as the specification words it: one of
the keywords TÍTULO/CAPÍTULO (case-insensitive) followed by a numbering
token — the whitespace-delimited word after the keyword — that is a
Roman numeral, an Arabic numeral, an ordinal word, or "ÚNICO". -/
def specChapterHeader (s : String) : Bool :=
  match (if startsWithCI "TÍTULO".data s.data then some (s.data.drop 6)
         else if startsWithCI "CAPÍTULO".data s.data then some (s.data.drop 8)
         else none) with
  | none => false
  | some r =>
    if r.takeWhile pySpace = [] then false
    else
      let tok := (r.dropWhile pySpace).takeWhile (fun c => !pySpace c)
      (tok ≠ [] && tok.all isRomanCI) || (tok ≠ [] && tok.all Char.isDigit) ||
        t_item_words.any (fun w => ciEqWord w tok) || ciEqWord "ÚNICO" tok

/-- Chapter-header classification of the amended claim: keyword plus
whitespace plus a token that merely starts with a Roman-numeral
character or digit, or is one of the words PRIMERO, SEGUNDO, TERCERO,
ÚNICO (as a case-insensitive token start). -/
def amendedChapterHeader (s : String) : Bool :=
  match (if startsWithCI "TÍTULO".data s.data then some (s.data.drop 6)
         else if startsWithCI "CAPÍTULO".data s.data then some (s.data.drop 8)
         else none) with
  | none => false
  | some r =>
    if r.takeWhile pySpace = [] then false
    else
      let r2 := r.dropWhile pySpace
      (match r2 with
       | c :: _ => isRomanCI c || c.isDigit
       | [] => false)
      || ["PRIMERO", "SEGUNDO", "TERCERO", "ÚNICO"].any
           (fun w => startsWithCI w.data r2)

/-- The transitory-block search as the specification words it: the
first index `j` of the whole document with `pos ≤ j` whose stripped
line matches the `transitorios` pattern. -/
def firstTransFromSpec (lines : List String) (pos : Nat) : Option Nat :=
  (List.range lines.length).find?
    (fun j => decide (pos ≤ j) && transitoriosMatch (pystrip (lines.getD j "")).data)

/-- The end boundaries of the chapters as the specification words them:
for every chapter but the last, the next chapter's start line; for the
last chapter, the transitory-block start found scanning forward from
its start line, else end-of-document. -/
def spec_fins (lines : List String) (ps : List (Nat × String)) : List Nat :=
  match ps.getLast? with
  | none => []
  | some (lastPos, _) =>
    ps.tail.map Prod.fst ++ [(firstTransFromSpec lines lastPos).getD lines.length]

/-- Chapter construction from explicit (header position, label, end
boundary) triples: articles are parsed from the line range
`[pos + 1, fin)` and empty chapters are dropped. -/
def build_chapters (contenido : String) (pts : List ((Nat × String) × Nat)) :
    List Capitulo :=
  pts.foldr
    (fun pt acc =>
      (let arts := parsear_articulos contenido (pt.1.1 + 1) pt.2
       if arts ≠ [] then [⟨pt.1.2, arts⟩] else []) ++ acc) []

/-- Lower bound on every header index the fold can still emit: the
current unit's header index if one is open, else the next line index. -/
def idxLB {α : Type} (cur : Option (Nat × α)) (k : Nat) : Nat :=
  match cur with
  | some (h, _) => h
  | none => k

/-!  ## Projection lemmas: dropping the ghost indices recovers the parsers  -/

theorem frac_flush_idx_snd (cur : Option (Nat × String)) (curT : List String) :
    (frac_flush_idx cur curT).map Prod.snd = frac_flush (cur.map Prod.snd) curT := by
  rcases cur with _ | ⟨h, f⟩
  · simp [frac_flush_idx, frac_flush]
  · simp only [frac_flush_idx, frac_flush, Option.map]
    split_ifs <;> simp

theorem frac_loop_idx_snd (ls : List String) :
    ∀ (k : Nat) (cur : Option (Nat × String)) (curT : List String),
      (frac_loop_idx ls k cur curT).map Prod.snd = frac_loop ls (cur.map Prod.snd) curT := by
  induction ls with
  | nil => intro k cur curT; exact frac_flush_idx_snd cur curT
  | cons l rest ih =>
    intro k cur curT
    simp only [frac_loop_idx, frac_loop]
    split_ifs with hl ht
    · exact ih (k + 1) cur curT
    · rcases hm : fraccionMatch (pystrip l).data with _ | ⟨g1, g2⟩
      · simp only [hm]; exact ih _ cur _
      · simp only [hm, List.map_append, frac_flush_idx_snd]
        congr 1
        exact ih _ (some (k, rstripDot ⟨g1⟩)) _
    · rcases hm : fraccionMatch (pystrip l).data with _ | ⟨g1, g2⟩
      · simp only [hm]; exact ih _ cur _
      · simp only [hm, List.map_append, frac_flush_idx_snd]
        congr 1
        exact ih _ (some (k, rstripDot ⟨g1⟩)) _

theorem art_flush_idx_snd (cur : Option (Nat × Nat)) (curT : List String) :
    (art_flush_idx cur curT).map Prod.snd = art_flush (cur.map Prod.snd) curT := by
  rcases cur with _ | ⟨h, n⟩
  · simp [art_flush_idx, art_flush]
  · simp only [art_flush_idx, art_flush, Option.map]
    split_ifs <;> simp

theorem art_loop_idx_snd (ls : List String) :
    ∀ (k : Nat) (cur : Option (Nat × Nat)) (curT : List String),
      (art_loop_idx ls k cur curT).map Prod.snd = art_loop ls (cur.map Prod.snd) curT := by
  induction ls with
  | nil => intro k cur curT; exact art_flush_idx_snd cur curT
  | cons l rest ih =>
    intro k cur curT
    simp only [art_loop_idx, art_loop]
    split_ifs with hl hc
    · exact ih (k + 1) cur curT
    · exact art_flush_idx_snd cur curT
    · rcases hm : articuloMatch (pystrip l).data with _ | ⟨g1, g2⟩
      · simp only [hm]
        rcases cur with _ | ⟨h, n⟩
        · simpa using ih (k + 1) none curT
        · simpa using ih (k + 1) (some (h, n)) (curT ++ [pystrip l])
      · simp only [hm, List.map_append, art_flush_idx_snd]
        congr 1
        exact ih _ (some (k, articulo_num g1)) _

theorem parsear_articulos_idx_snd (contenido : String) (inicio fin : Nat) :
    (parsear_articulos_idx contenido inicio fin).map Prod.snd =
      parsear_articulos contenido inicio fin := by
  simpa [parsear_articulos_idx, parsear_articulos] using
    art_loop_idx_snd (py_slice (split_nl contenido) inicio fin) inicio none []

theorem parsear_fracciones_idx_snd (texto : String) :
    (parsear_fracciones_idx texto).map Prod.snd = parsear_fracciones texto := by
  simpa [parsear_fracciones_idx, parsear_fracciones] using
    frac_loop_idx_snd (split_nl texto) 0 none []

theorem cap_go_idx_snd (contenido : String) (lines : List String) :
    ∀ ps, (cap_go_idx contenido lines ps).map Prod.snd = cap_go contenido lines ps := by
  intro ps
  induction ps with
  | nil => simp [cap_go_idx, cap_go]
  | cons p rest ih =>
    rcases p with ⟨pos, titulo⟩
    simp only [cap_go_idx, cap_go, List.map_append, ih]
    split_ifs <;> simp

/-!  ## Order and bounds invariants for the instrumented folds  -/

theorem frac_loop_idx_bounds (ls : List String) :
    ∀ (k : Nat) (cur : Option (Nat × String)) (curT : List String),
      (∀ p, cur = some p → p.1 < k) →
      List.Pairwise (· < ·) ((frac_loop_idx ls k cur curT).map Prod.fst) ∧
      ∀ i ∈ (frac_loop_idx ls k cur curT).map Prod.fst,
        idxLB cur k ≤ i ∧ i < k + ls.length := by
  induction ls with
  | nil =>
    intro k cur curT hcur
    rcases cur with _ | ⟨h, f⟩
    · simp [frac_loop_idx, frac_flush_idx]
    · have hk := hcur (h, f) rfl
      simp only [frac_loop_idx, frac_flush_idx]
      split_ifs
      · simp only [List.map_cons, List.map_nil, List.length_nil]
        exact ⟨List.pairwise_singleton _ _,
          by intro i hi; simp at hi; subst hi; exact ⟨le_refl _, by omega⟩⟩
      · simp
  | cons l rest ih =>
    intro k cur curT hcur
    have hcur1 : ∀ p, cur = some p → p.1 < k + 1 :=
      fun p hp => Nat.lt_succ_of_lt (hcur p hp)
    simp only [frac_loop_idx]
    split_ifs with hl ht
    · obtain ⟨hp, hb⟩ := ih (k + 1) cur curT hcur1
      refine ⟨hp, fun i hi => ?_⟩
      obtain ⟨h1, h2⟩ := hb i hi
      refine ⟨?_, by simp only [List.length_cons]; omega⟩
      rcases cur with _ | ⟨h, f⟩ <;> simp only [idxLB] at h1 ⊢ <;> omega
    · rcases hm : fraccionMatch (pystrip l).data with _ | ⟨g1, g2⟩
      · simp only [hm]
        obtain ⟨hp, hb⟩ := ih (k + 1) cur (curT ++ [pystrip l]) hcur1
        refine ⟨hp, fun i hi => ?_⟩
        obtain ⟨h1, h2⟩ := hb i hi
        refine ⟨?_, by simp only [List.length_cons]; omega⟩
        rcases cur with _ | ⟨h, f⟩ <;> simp only [idxLB] at h1 ⊢ <;> omega
      · simp only [hm, List.map_append]
        obtain ⟨hp, hb⟩ :=
          ih (k + 1) (some (k, rstripDot ⟨g1⟩)) (if g2 ≠ [] then [⟨g2⟩] else [])
            (by intro p hp; cases hp; simp)
        rcases cur with _ | ⟨h, f⟩
        · simp only [frac_flush_idx, List.map_nil, List.nil_append]
          refine ⟨hp, fun i hi => ?_⟩
          obtain ⟨h1, h2⟩ := hb i hi
          simp only [idxLB] at h1 ⊢
          exact ⟨by omega, by simp only [List.length_cons]; omega⟩
        · have hk := hcur (h, f) rfl
          simp only [frac_flush_idx]
          by_cases hflush : f ≠ "" ∧ curT ≠ []
          · rw [if_pos hflush]
            simp only [List.map_cons, List.map_nil, List.singleton_append]
            constructor
            · refine List.pairwise_cons.mpr ⟨fun b hb' => ?_, hp⟩
              obtain ⟨h1, _⟩ := hb b hb'
              simp only [idxLB] at h1
              omega
            · intro i hi
              rcases List.mem_cons.mp hi with rfl | hi'
              · exact ⟨le_refl _, by simp only [List.length_cons]; omega⟩
              · obtain ⟨h1, h2⟩ := hb i hi'
                simp only [idxLB] at h1 ⊢
                exact ⟨by omega, by simp only [List.length_cons]; omega⟩
          · rw [if_neg hflush]
            simp only [List.map_nil, List.nil_append]
            refine ⟨hp, fun i hi => ?_⟩
            obtain ⟨h1, h2⟩ := hb i hi
            simp only [idxLB] at h1 ⊢
            exact ⟨by omega, by simp only [List.length_cons]; omega⟩
    · rcases hm : fraccionMatch (pystrip l).data with _ | ⟨g1, g2⟩
      · simp only [hm]
        obtain ⟨hp, hb⟩ := ih (k + 1) cur curT hcur1
        refine ⟨hp, fun i hi => ?_⟩
        obtain ⟨h1, h2⟩ := hb i hi
        refine ⟨?_, by simp only [List.length_cons]; omega⟩
        rcases cur with _ | ⟨h, f⟩ <;> simp only [idxLB] at h1 ⊢ <;> omega
      · simp only [hm, List.map_append]
        obtain ⟨hp, hb⟩ :=
          ih (k + 1) (some (k, rstripDot ⟨g1⟩)) (if g2 ≠ [] then [⟨g2⟩] else [])
            (by intro p hp; cases hp; simp)
        rcases cur with _ | ⟨h, f⟩
        · simp only [frac_flush_idx, List.map_nil, List.nil_append]
          refine ⟨hp, fun i hi => ?_⟩
          obtain ⟨h1, h2⟩ := hb i hi
          simp only [idxLB] at h1 ⊢
          exact ⟨by omega, by simp only [List.length_cons]; omega⟩
        · have hk := hcur (h, f) rfl
          simp only [frac_flush_idx]
          by_cases hflush : f ≠ "" ∧ curT ≠ []
          · rw [if_pos hflush]
            simp only [List.map_cons, List.map_nil, List.singleton_append]
            constructor
            · refine List.pairwise_cons.mpr ⟨fun b hb' => ?_, hp⟩
              obtain ⟨h1, _⟩ := hb b hb'
              simp only [idxLB] at h1
              omega
            · intro i hi
              rcases List.mem_cons.mp hi with rfl | hi'
              · exact ⟨le_refl _, by simp only [List.length_cons]; omega⟩
              · obtain ⟨h1, h2⟩ := hb i hi'
                simp only [idxLB] at h1 ⊢
                exact ⟨by omega, by simp only [List.length_cons]; omega⟩
          · rw [if_neg hflush]
            simp only [List.map_nil, List.nil_append]
            refine ⟨hp, fun i hi => ?_⟩
            obtain ⟨h1, h2⟩ := hb i hi
            simp only [idxLB] at h1 ⊢
            exact ⟨by omega, by simp only [List.length_cons]; omega⟩

theorem art_loop_idx_bounds (ls : List String) :
    ∀ (k : Nat) (cur : Option (Nat × Nat)) (curT : List String),
      (∀ p, cur = some p → p.1 < k) →
      List.Pairwise (· < ·) ((art_loop_idx ls k cur curT).map Prod.fst) ∧
      ∀ i ∈ (art_loop_idx ls k cur curT).map Prod.fst,
        idxLB cur k ≤ i ∧ i < k + ls.length := by
  induction ls with
  | nil =>
    intro k cur curT hcur
    rcases cur with _ | ⟨h, n⟩
    · simp [art_loop_idx, art_flush_idx]
    · have hk := hcur (h, n) rfl
      simp only [art_loop_idx, art_flush_idx]
      split_ifs
      · simp only [List.map_cons, List.map_nil, List.length_nil]
        exact ⟨List.pairwise_singleton _ _,
          by intro i hi; simp at hi; subst hi; exact ⟨le_refl _, by omega⟩⟩
      · simp
  | cons l rest ih =>
    intro k cur curT hcur
    have hcur1 : ∀ p, cur = some p → p.1 < k + 1 :=
      fun p hp => Nat.lt_succ_of_lt (hcur p hp)
    simp only [art_loop_idx]
    split_ifs with hl hc
    · obtain ⟨hp, hb⟩ := ih (k + 1) cur curT hcur1
      refine ⟨hp, fun i hi => ?_⟩
      obtain ⟨h1, h2⟩ := hb i hi
      refine ⟨?_, by simp only [List.length_cons]; omega⟩
      rcases cur with _ | ⟨h, n⟩ <;> simp only [idxLB] at h1 ⊢ <;> omega
    · rcases cur with _ | ⟨h, n⟩
      · simp [art_flush_idx]
      · have hk := hcur (h, n) rfl
        simp only [art_flush_idx]
        split_ifs
        · simp only [List.map_cons, List.map_nil]
          refine ⟨List.pairwise_singleton _ _, ?_⟩
          intro i hi
          simp at hi
          subst hi
          exact ⟨le_refl _, by simp only [List.length_cons]; omega⟩
        · simp
    · rcases hm : articuloMatch (pystrip l).data with _ | ⟨g1, g2⟩
      · simp only [hm]
        rcases cur with _ | ⟨h, n⟩
        · obtain ⟨hp, hb⟩ := ih (k + 1) none curT (by intro p hp; cases hp)
          refine ⟨hp, fun i hi => ?_⟩
          obtain ⟨h1, h2⟩ := hb i hi
          simp only [idxLB] at h1 ⊢
          exact ⟨by omega, by simp only [List.length_cons]; omega⟩
        · obtain ⟨hp, hb⟩ :=
            ih (k + 1) (some (h, n)) (curT ++ [pystrip l]) hcur1
          refine ⟨hp, fun i hi => ?_⟩
          obtain ⟨h1, h2⟩ := hb i hi
          simp only [idxLB] at h1 ⊢
          exact ⟨h1, by simp only [List.length_cons]; omega⟩
      · simp only [hm, List.map_append]
        obtain ⟨hp, hb⟩ :=
          ih (k + 1) (some (k, articulo_num g1)) (if g2 ≠ [] then [⟨g2⟩] else [])
            (by intro p hp; cases hp; simp)
        rcases cur with _ | ⟨h, n⟩
        · simp only [art_flush_idx, List.map_nil, List.nil_append]
          refine ⟨hp, fun i hi => ?_⟩
          obtain ⟨h1, h2⟩ := hb i hi
          simp only [idxLB] at h1 ⊢
          exact ⟨by omega, by simp only [List.length_cons]; omega⟩
        · have hk := hcur (h, n) rfl
          simp only [art_flush_idx]
          by_cases hflush : curT ≠ []
          · rw [if_pos hflush]
            simp only [List.map_cons, List.map_nil, List.singleton_append]
            constructor
            · refine List.pairwise_cons.mpr ⟨fun b hb' => ?_, hp⟩
              obtain ⟨h1, _⟩ := hb b hb'
              simp only [idxLB] at h1
              omega
            · intro i hi
              rcases List.mem_cons.mp hi with rfl | hi'
              · exact ⟨le_refl _, by simp only [List.length_cons]; omega⟩
              · obtain ⟨h1, h2⟩ := hb i hi'
                simp only [idxLB] at h1 ⊢
                exact ⟨by omega, by simp only [List.length_cons]; omega⟩
          · rw [if_neg hflush]
            simp only [List.map_nil, List.nil_append]
            refine ⟨hp, fun i hi => ?_⟩
            obtain ⟨h1, h2⟩ := hb i hi
            simp only [idxLB] at h1 ⊢
            exact ⟨by omega, by simp only [List.length_cons]; omega⟩

theorem cap_pos_go_bounds (ls : List String) :
    ∀ k : Nat, List.Pairwise (· < ·) ((cap_pos_go k ls).map Prod.fst) ∧
      ∀ p ∈ cap_pos_go k ls, k ≤ p.1 := by
  induction ls with
  | nil => intro k; simp [cap_pos_go]
  | cons l rest ih =>
    intro k
    simp only [cap_pos_go]
    split_ifs with hcap
    · obtain ⟨hp, hb⟩ := ih (k + 1)
      constructor
      · simp only [List.map_cons]
        refine List.pairwise_cons.mpr ⟨fun b hb' => ?_, hp⟩
        obtain ⟨p, hpmem, rfl⟩ := List.mem_map.mp hb'
        have := hb p hpmem
        omega
      · intro p hp'
        rcases List.mem_cons.mp hp' with rfl | hmem
        · exact le_refl k
        · have := hb p hmem; omega
    · obtain ⟨hp, hb⟩ := ih (k + 1)
      exact ⟨hp, fun p hmem => by have := hb p hmem; omega⟩

theorem capitulo_positions_sorted (lines : List String) :
    List.Pairwise (· < ·) ((capitulo_positions lines).map Prod.fst) :=
  (cap_pos_go_bounds lines 0).1

theorem chapter_extents_mem_start (lines : List String) :
    ∀ (ps : List (Nat × String)) (e : Nat × Nat), e ∈ chapter_extents lines ps →
      ∃ q ∈ ps, e.1 = q.1 + 1 := by
  intro ps
  induction ps with
  | nil => simp [chapter_extents]
  | cons p rest ih =>
    rcases p with ⟨pos, t⟩
    intro e he
    simp only [chapter_extents] at he
    rcases List.mem_cons.mp he with rfl | hmem
    · exact ⟨(pos, t), List.mem_cons_self _ _, rfl⟩
    · obtain ⟨q, hq, he'⟩ := ih e hmem
      exact ⟨q, List.mem_cons_of_mem _ hq, he'⟩

theorem chapter_extents_disjoint (lines : List String) :
    ∀ ps : List (Nat × String), List.Pairwise (fun a b => a.1 < b.1) ps →
      List.Pairwise (fun (a b : Nat × Nat) => a.2 ≤ b.1) (chapter_extents lines ps) := by
  intro ps
  induction ps with
  | nil => intro _; simp [chapter_extents]
  | cons p rest ih =>
    rcases p with ⟨pos, t⟩
    intro hps
    obtain ⟨hhead, htail⟩ := List.pairwise_cons.mp hps
    simp only [chapter_extents]
    refine List.pairwise_cons.mpr ⟨?_, ih htail⟩
    intro b hb
    obtain ⟨q, hq, hb1⟩ := chapter_extents_mem_start lines rest b hb
    rcases rest with _ | ⟨r0, rs⟩
    · simp at hq
    · simp only []
      rw [hb1]
      rcases List.mem_cons.mp hq with rfl | hq'
      · omega
      · have : r0.1 < q.1 := (List.pairwise_cons.mp htail).1 q hq'
        omega

theorem cap_go_idx_fst_sublist (contenido : String) (lines : List String) :
    ∀ ps, ((cap_go_idx contenido lines ps).map Prod.fst).Sublist (ps.map Prod.fst) := by
  intro ps
  induction ps with
  | nil => simp [cap_go_idx]
  | cons p rest ih =>
    rcases p with ⟨pos, titulo⟩
    simp only [cap_go_idx, List.map_append, List.map_cons]
    split_ifs with h
    · simpa using List.Sublist.cons₂ pos ih
    · simp only [List.map_nil, List.nil_append]
      exact ih.cons pos

theorem parsear_articulos_idx_bounds (contenido : String) (inicio fin : Nat) :
    List.Pairwise (· < ·) ((parsear_articulos_idx contenido inicio fin).map Prod.fst) ∧
    ∀ i ∈ (parsear_articulos_idx contenido inicio fin).map Prod.fst,
      inicio ≤ i ∧ i < fin := by
  obtain ⟨hp, hb⟩ :=
    art_loop_idx_bounds (py_slice (split_nl contenido) inicio fin) inicio none []
      (by intro p hp; cases hp)
  refine ⟨hp, fun i hi => ?_⟩
  obtain ⟨h1, h2⟩ := hb i hi
  simp only [idxLB] at h1
  have hlen : (py_slice (split_nl contenido) inicio fin).length ≤ fin - inicio := by
    simp [py_slice]
  exact ⟨h1, by omega⟩

/-- C2.  Order preservation and non-overlap across the model, for every
input:
(1) chapter-header positions are produced in strictly increasing source
line order;
(2) the line ranges handed to the article segmenter for sibling chapters
are pairwise non-overlapping half-open intervals (each one ends no later
than the next one starts), so every input line belongs to at most one
chapter;
(3) the chapters kept in the output carry strictly increasing header
line positions, and dropping the ghost positions recovers the chapter
loop's output;
(4) when at least one chapter header exists, `parsear_capitulos` is
exactly that projected output;
(5) for every range, articles are emitted with strictly increasing
header line indices, all inside `[inicio, fin)`, and the instrumented
fold projects to `parsear_articulos`, so articles appear in source
header order and each owns a distinct header line;
(6) for every article text, fracciones are emitted with strictly
increasing header line indices projecting to `parsear_fracciones`. -/
theorem c2_order_and_no_overlap (contenido : String) :
    List.Pairwise (· < ·) ((capitulo_positions (split_nl contenido)).map Prod.fst) ∧
    List.Pairwise (fun (a b : Nat × Nat) => a.2 ≤ b.1)
      (chapter_extents (split_nl contenido) (capitulo_positions (split_nl contenido))) ∧
    List.Pairwise (· < ·)
      ((cap_go_idx contenido (split_nl contenido)
        (capitulo_positions (split_nl contenido))).map Prod.fst) ∧
    (cap_go_idx contenido (split_nl contenido)
        (capitulo_positions (split_nl contenido))).map Prod.snd =
      cap_go contenido (split_nl contenido) (capitulo_positions (split_nl contenido)) ∧
    (capitulo_positions (split_nl contenido) ≠ [] →
      parsear_capitulos contenido =
        (cap_go_idx contenido (split_nl contenido)
          (capitulo_positions (split_nl contenido))).map Prod.snd) ∧
    (∀ inicio fin : Nat,
      List.Pairwise (· < ·) ((parsear_articulos_idx contenido inicio fin).map Prod.fst) ∧
      (parsear_articulos_idx contenido inicio fin).map Prod.snd =
        parsear_articulos contenido inicio fin ∧
      ∀ i ∈ (parsear_articulos_idx contenido inicio fin).map Prod.fst,
        inicio ≤ i ∧ i < fin) ∧
    ∀ texto : String,
      List.Pairwise (· < ·) ((parsear_fracciones_idx texto).map Prod.fst) ∧
      (parsear_fracciones_idx texto).map Prod.snd = parsear_fracciones texto := by
  refine ⟨capitulo_positions_sorted _, ?_, ?_, cap_go_idx_snd _ _ _, ?_, ?_, ?_⟩
  · exact chapter_extents_disjoint _ _ (by
      have h := capitulo_positions_sorted (split_nl contenido)
      exact (List.pairwise_map.mp h))
  · exact List.Pairwise.sublist (cap_go_idx_fst_sublist _ _ _)
      (capitulo_positions_sorted _)
  · intro hne
    rw [cap_go_idx_snd]
    simp only [parsear_capitulos]
    rw [if_neg hne]
  · intro inicio fin
    obtain ⟨hp, hb⟩ := parsear_articulos_idx_bounds contenido inicio fin
    exact ⟨hp, parsear_articulos_idx_snd contenido inicio fin, hb⟩
  · intro texto
    exact ⟨(frac_loop_idx_bounds (split_nl texto) 0 none [] (by intro p hp; cases hp)).1,
      parsear_fracciones_idx_snd texto⟩

/-- Witness for C2: the hypothesis of the output-link conjunct is
discharged at a concrete two-chapter document. -/
theorem c2_order_and_no_overlap_witness :
    parsear_capitulos "CAPÍTULO I\nArtículo 1. Uno.\nCAPÍTULO II\nArtículo 2. Dos." =
      (cap_go_idx "CAPÍTULO I\nArtículo 1. Uno.\nCAPÍTULO II\nArtículo 2. Dos."
        (split_nl "CAPÍTULO I\nArtículo 1. Uno.\nCAPÍTULO II\nArtículo 2. Dos.")
        (capitulo_positions
          (split_nl "CAPÍTULO I\nArtículo 1. Uno.\nCAPÍTULO II\nArtículo 2. Dos."))).map
        Prod.snd :=
  (c2_order_and_no_overlap
    "CAPÍTULO I\nArtículo 1. Uno.\nCAPÍTULO II\nArtículo 2. Dos.").2.2.2.2.1
    (by decide)

/-- C1.  Parsing "Artículo 5. Las obligaciones son:" followed by
"I. Pagar." and "II. Declarar." yields exactly one Article with number
5, body "Las obligaciones son:" (sub-item lines excluded), and two
SubItems with markers "I" and "II" in that order. -/
theorem c1_articulo5_subitems :
    parsear_articulos "Artículo 5. Las obligaciones son:\nI. Pagar.\nII. Declarar." 0
        (split_nl "Artículo 5. Las obligaciones son:\nI. Pagar.\nII. Declarar.").length =
      [⟨5, "Las obligaciones son:", [⟨"I", "Pagar."⟩, ⟨"II", "Declarar."⟩]⟩] := by
  decide

theorem cap_pos_go_eq_nil (ls : List String) :
    ∀ k, (∀ l ∈ ls, capituloMatch (pystrip l).data = false) → cap_pos_go k ls = [] := by
  induction ls with
  | nil => intro k _; rfl
  | cons l rest ih =>
    intro k hall
    simp only [cap_pos_go]
    rw [if_neg (by simp [hall l (List.mem_cons_self _ _)])]
    exact ih (k + 1) (fun x hx => hall x (List.mem_cons_of_mem _ hx))

/-- Counterexample to C3 as stated: "Artículo 5." has no chapter-header
line and one article-header line, yet the parser returns zero chapters
(the bodyless article is dropped, so the implicit-chapter branch emits
nothing), not exactly one chapter. -/
theorem c3_counterexample :
    (∀ l ∈ split_nl "Artículo 5.", capituloMatch (pystrip l).data = false) ∧
    (∃ l ∈ split_nl "Artículo 5.", (articuloMatch (pystrip l).data).isSome) ∧
    parsear_capitulos "Artículo 5." = [] := by
  decide

/-- C3 (amended).  If no line matches the chapter-header pattern and the
article segmenter yields at least one article on the whole document,
then the parser returns exactly one chapter labeled "CAPÍTULO ÚNICO"
containing exactly those articles. -/
theorem c3_capitulo_unico (contenido : String)
    (hnochap : ∀ l ∈ split_nl contenido, capituloMatch (pystrip l).data = false)
    (harts : parsear_articulos contenido 0 (split_nl contenido).length ≠ []) :
    parsear_capitulos contenido =
      [⟨"CAPÍTULO ÚNICO", parsear_articulos contenido 0 (split_nl contenido).length⟩] := by
  have hps : capitulo_positions (split_nl contenido) = [] :=
    cap_pos_go_eq_nil (split_nl contenido) 0 hnochap
  simp only [parsear_capitulos, capitulo_positions] at *
  rw [if_pos hps, if_pos harts]

/-- Witness for C3 (amended) at a one-article document. -/
theorem c3_capitulo_unico_witness :
    parsear_capitulos "Artículo 1. Uno." =
      [⟨"CAPÍTULO ÚNICO",
        parsear_articulos "Artículo 1. Uno." 0 (split_nl "Artículo 1. Uno.").length⟩] :=
  c3_capitulo_unico "Artículo 1. Uno." (by decide) (by decide)

/-- Counterexample to C4 as stated: "CAPÍTULO QUINTO" starts with the
keyword CAPÍTULO followed by the ordinal word QUINTO, so the claimed
classification accepts it, but the code's pattern does not (its ordinal
alternatives are only PRIMERO/SEGUNDO/TERCERO/ÚNICO). -/
theorem c4_counterexample :
    specChapterHeader "CAPÍTULO QUINTO" = true ∧
    capituloMatch "CAPÍTULO QUINTO".data = false := by
  decide

/-- C4 (amended).  A line is classified as a chapter header iff it
begins with TÍTULO or CAPÍTULO (case-insensitive) followed by
whitespace and then either a character in the Roman-numeral class
(case-insensitive), a digit, or one of the words PRIMERO, SEGUNDO,
TERCERO, ÚNICO as a case-insensitive token start; ordinal words beyond
TERCERO are not recognised, and the numbering token need only start
with a Roman-numeral character or digit. -/
theorem c4_chapter_header_classification (s : String) :
    capituloMatch s.data = amendedChapterHeader s := by
  unfold capituloMatch amendedChapterHeader
  rcases h : (if startsWithCI "TÍTULO".data s.data then some (s.data.drop 6)
         else if startsWithCI "CAPÍTULO".data s.data then some (s.data.drop 8)
         else none) with _ | r
  · rfl
  · simp only []
    split_ifs with hws
    · rfl
    · simp [List.any_cons, List.any_nil, Bool.or_assoc, Bool.or_false]

theorem scan_drop_eq_range_find (q : String → Bool) :
    ∀ (l : List String) (pos : Nat),
      ((l.drop pos).findIdx? q).map (pos + ·) =
        (List.range l.length).find? (fun j => decide (pos ≤ j) && q (l.getD j "")) := by
  intro l
  induction l with
  | nil => intro pos; simp
  | cons a t ih =>
    intro pos
    rcases pos with _ | pos
    · have h0 := ih 0
      simp only [List.drop_zero] at h0 ⊢
      rw [List.length_cons, List.range_succ_eq_map]
      rcases hq : q a with _ | _
      · rw [List.find?_cons_of_neg _ (by simp [hq])]
        rw [List.find?_map]
        have hpred : ((fun j => decide (0 ≤ j) && q ((a :: t).getD j "")) ∘ Nat.succ) =
            fun j => decide (0 ≤ j) && q (t.getD j "") := by
          funext j
          simp [Nat.zero_le, decide_True, List.getD_cons_succ]
        rw [hpred, ← h0]
        rw [show (a :: t).findIdx? q = List.findIdx? q t (0 + 1) from by
          simp [List.findIdx?_cons, hq]]
        rw [List.findIdx?_succ]
        simp only [Option.map_map]
        congr 1
      · rw [List.find?_cons_of_pos _ (by simp [hq])]
        rw [show (a :: t).findIdx? q = some 0 from by simp [List.findIdx?_cons, hq]]
        simp
    · simp only [List.drop_succ_cons, List.length_cons, List.range_succ_eq_map]
      rw [List.find?_cons_of_neg _ (by simp)]
      rw [List.find?_map]
      have := ih pos
      rw [show ((fun j => decide (pos + 1 ≤ j) && q ((a :: t).getD j "")) ∘ Nat.succ) =
            (fun j => decide (pos ≤ j) && q (t.getD j "")) from
        funext fun j => by simp [Nat.succ_le_succ_iff]]
      rw [← this]
      simp only [Option.map_map]
      congr 1
      funext i
      simp [Function.comp]
      omega

theorem scan_trans_eq_spec (lines : List String) (pos : Nat) :
    scan_trans lines pos = firstTransFromSpec lines pos :=
  scan_drop_eq_range_find (fun l => transitoriosMatch (pystrip l).data) lines pos

theorem cap_go_eq_build (contenido : String) (lines : List String) :
    ∀ ps : List (Nat × String), ps ≠ [] →
      cap_go contenido lines ps =
        build_chapters contenido (ps.zip (spec_fins lines ps)) := by
  intro ps
  induction ps with
  | nil => intro h; exact absurd rfl h
  | cons p rest ih =>
    intro _
    rcases p with ⟨pos, titulo⟩
    rcases rest with _ | ⟨q, rs⟩
    · simp only [cap_go, spec_fins, List.getLast?_singleton, List.tail_cons,
        List.map_nil, List.nil_append, List.zip_cons_cons, List.zip_nil_right,
        build_chapters, List.foldr_cons, List.foldr_nil, List.append_nil,
        scan_trans_eq_spec]
      rcases hfs : firstTransFromSpec lines pos with _ | j <;> simp [hfs, Option.getD]
    · have hspec : spec_fins lines ((pos, titulo) :: q :: rs) =
          q.1 :: spec_fins lines (q :: rs) := by
        simp only [spec_fins, List.getLast?_cons_cons]
        rcases hl : (q :: rs).getLast? with _ | lp
        · simp at hl
        · simp [hl]
      rw [hspec, List.zip_cons_cons]
      conv_lhs => rw [cap_go]
      rw [ih (by simp)]
      simp only [build_chapters, List.foldr_cons]

/-- C5.  When at least one chapter header exists, the parser's output is
exactly the chapters built from the header positions zipped with the
spec's end boundaries: every non-last chapter ends at the next chapter
header's start line (`spec_fins` pairs it with the next position,
regardless of any transitory line), and only the last chapter ends at
the first transitory-header line found scanning forward from its start
line (`firstTransFromSpec`), or end-of-document when there is none. -/
theorem c5_chapter_end_boundaries (contenido : String)
    (hne : capitulo_positions (split_nl contenido) ≠ []) :
    parsear_capitulos contenido =
      build_chapters contenido
        ((capitulo_positions (split_nl contenido)).zip
          (spec_fins (split_nl contenido) (capitulo_positions (split_nl contenido)))) := by
  simp only [parsear_capitulos]
  rw [if_neg hne]
  exact cap_go_eq_build contenido (split_nl contenido) _ hne

/-- Witness for C5 at a two-chapter document with a transitory block:
the second chapter is truncated at the transitory header, the first is
not. -/
theorem c5_chapter_end_boundaries_witness :
    parsear_capitulos
        "CAPÍTULO I\nArtículo 1. Uno.\nCAPÍTULO II\nArtículo 2. Dos.\nTRANSITORIOS\nPRIMERO. Vigor." =
      build_chapters
        "CAPÍTULO I\nArtículo 1. Uno.\nCAPÍTULO II\nArtículo 2. Dos.\nTRANSITORIOS\nPRIMERO. Vigor."
        ((capitulo_positions (split_nl
          "CAPÍTULO I\nArtículo 1. Uno.\nCAPÍTULO II\nArtículo 2. Dos.\nTRANSITORIOS\nPRIMERO. Vigor.")).zip
          (spec_fins (split_nl
            "CAPÍTULO I\nArtículo 1. Uno.\nCAPÍTULO II\nArtículo 2. Dos.\nTRANSITORIOS\nPRIMERO. Vigor.")
            (capitulo_positions (split_nl
              "CAPÍTULO I\nArtículo 1. Uno.\nCAPÍTULO II\nArtículo 2. Dos.\nTRANSITORIOS\nPRIMERO. Vigor.")))) :=
  c5_chapter_end_boundaries
    "CAPÍTULO I\nArtículo 1. Uno.\nCAPÍTULO II\nArtículo 2. Dos.\nTRANSITORIOS\nPRIMERO. Vigor."
    (by decide)

/-- C6.  Article-number recovery never fails: whenever the captured
token, with ordinal marks removed, is not purely numeric (this includes
"ÚNICO"/"Único"), the article number defaults to 1; in particular
"Artículo Único. Se deroga la presente ley." parses to the single
Article 1 with that body and no sub-items. -/
theorem c6_articulo_unico_fallback :
    (∀ g1 : List Char,
      ¬(g1.filter (fun c => c ≠ 'º' ∧ c ≠ '°') ≠ [] ∧
        (g1.filter (fun c => c ≠ 'º' ∧ c ≠ '°')).all Char.isDigit = true) →
      articulo_num g1 = 1) ∧
    parsear_articulos "Artículo Único. Se deroga la presente ley." 0
        (split_nl "Artículo Único. Se deroga la presente ley.").length =
      [⟨1, "Se deroga la presente ley.", []⟩] := by
  constructor
  · intro g1 h
    simp only [articulo_num]
    rw [if_neg h]
  · decide

/-- Witness for C6: the token "Único" is not numeric and maps to 1. -/
theorem c6_articulo_unico_fallback_witness : articulo_num "Único".data = 1 :=
  c6_articulo_unico_fallback.1 "Único".data (by decide)

/-- Counterexample to C7 as stated: on thirteen one-letter lines the
accumulated preamble holds 11 lines, exceeding the claimed bound of 10
(the loop appends first and only then checks `> 10`). -/
theorem c7_counterexample :
    (decreto_lines "a\nb\nc\nd\ne\nf\ng\nh\ni\nj\nk\nl\nm").length = 11 := by
  decide

theorem dec_loop_length_le (ls : List String) :
    ∀ acc : List String, acc.length ≤ 10 → (dec_loop ls acc).length ≤ 11 := by
  induction ls with
  | nil => intro acc h; simp only [dec_loop]; omega
  | cons l rest ih =>
    intro acc h
    simp only [dec_loop]
    split_ifs with h1 h2 h3
    · exact ih acc h
    · omega
    · simp only [List.length_append, List.length_cons, List.length_nil]
      omega
    · refine ih _ ?_
      simp only [List.length_append, List.length_cons, List.length_nil] at h3 ⊢
      omega

/-- C7 (amended).  The extracted preamble accumulates at most 11 lines:
accumulation stops at a structural-header line or right after the 11th
line is appended (the bound check `> 10` runs after the append). -/
theorem c7_decreto_line_bound (contenido : String) :
    (decreto_lines contenido).length ≤ 11 :=
  dec_loop_length_le (split_nl contenido) [] (by simp)

theorem trans_loop_blank (ls : List String) :
    (∀ l ∈ ls, pystrip l = "") → trans_loop ls none [] = [] := by
  induction ls with
  | nil => intro _; rfl
  | cons l rest ih =>
    intro hall
    simp only [trans_loop]
    rw [if_pos (hall l (List.mem_cons_self _ _))]
    exact ih fun x hx => hall x (List.mem_cons_of_mem _ hx)

/-- C9.  The transitory segmenter returns the empty list (and, being a
total function, cannot raise) both when no line matches the
transitory-header pattern and when a transitory header exists but every
following line is blank after stripping. -/
theorem c9_transitorios_empty (contenido : String) :
    ((∀ l ∈ split_nl contenido, transitoriosMatch (pystrip l).data = false) →
      parsear_transitorios contenido = []) ∧
    (∀ i, (split_nl contenido).findIdx?
          (fun l => transitoriosMatch (pystrip l).data) = some i →
      (∀ l ∈ (split_nl contenido).drop (i + 1), pystrip l = "") →
      parsear_transitorios contenido = []) := by
  constructor
  · intro hall
    simp only [parsear_transitorios]
    have hnone : (split_nl contenido).findIdx?
        (fun l => transitoriosMatch (pystrip l).data) = none :=
      List.findIdx?_eq_none_iff.mpr fun x hx => by simp [hall x hx]
    simp only [hnone]
  · intro i hi hblank
    simp only [parsear_transitorios, hi]
    exact trans_loop_blank _ hblank

/-- Witness for C9: a document with no transitory header, and one whose
transitory header is followed only by blank lines. -/
theorem c9_transitorios_empty_witness :
    parsear_transitorios "sin transitorios" = [] ∧
    parsear_transitorios "TRANSITORIOS\n\n   " = [] :=
  ⟨(c9_transitorios_empty "sin transitorios").1 (by decide),
   (c9_transitorios_empty "TRANSITORIOS\n\n   ").2 0 (by decide) (by decide)⟩

/-- C10.  An article header with an empty inline remainder and no
following non-empty body line produces no Article: the final/previous
save step emits an article only when the accumulated text is non-empty
(`art_flush (some n) [] = []`), as shown at a following article header,
at a chapter-header break, and at range end. -/
theorem c10_bodyless_header_dropped :
    (∀ n : Nat, art_flush (some n) [] = []) ∧
    parsear_articulos "Artículo 7.\n \nArtículo 2. Cuerpo." 0
        (split_nl "Artículo 7.\n \nArtículo 2. Cuerpo.").length =
      [⟨2, "Cuerpo.", []⟩] ∧
    parsear_articulos "Artículo 7.\nCAPÍTULO I" 0
        (split_nl "Artículo 7.\nCAPÍTULO I").length = [] ∧
    parsear_articulos "Artículo 7." 0 (split_nl "Artículo 7.").length = [] := by
  refine ⟨fun n => rfl, ?_, ?_, ?_⟩ <;> decide

/-!  ## Lemmas about stripping and the title extractor (C8)  -/

theorem head?_dropWhile_false (p : Char → Bool) :
    ∀ (l : List Char) (c : Char), (l.dropWhile p).head? = some c → p c = false := by
  intro l
  induction l with
  | nil => intro c h; simp at h
  | cons a t ih =>
    intro c h
    rw [List.dropWhile_cons] at h
    split_ifs at h with hp
    · exact ih c h
    · simp only [List.head?_cons, Option.some.injEq] at h
      subst h
      simpa using hp

theorem getLast?_dropWhile (p : Char → Bool) :
    ∀ z : List Char, z.dropWhile p ≠ [] → (z.dropWhile p).getLast? = z.getLast? := by
  intro z
  induction z with
  | nil => intro h; simp at h
  | cons a t ih =>
    intro h
    rw [List.dropWhile_cons] at h ⊢
    split_ifs with hp
    · rw [if_pos hp] at h
      rw [ih h]
      rcases t with _ | ⟨b, t'⟩
      · simp at h
      · rw [List.getLast?_cons_cons]
    · rfl

theorem pystrip_getLast_false (l : List Char) (c : Char)
    (h : (pystrip_chars l).getLast? = some c) : pySpace c = false := by
  unfold pystrip_chars at h
  rw [List.getLast?_reverse] at h
  exact head?_dropWhile_false _ _ _ h

theorem pystrip_head_false (l : List Char) (c : Char)
    (h : (pystrip_chars l).head? = some c) : pySpace c = false := by
  unfold pystrip_chars at h
  rw [List.head?_reverse] at h
  by_cases hz : (l.dropWhile pySpace).reverse.dropWhile pySpace = []
  · rw [hz] at h; simp at h
  · rw [getLast?_dropWhile _ _ hz, List.getLast?_reverse] at h
    exact head?_dropWhile_false _ _ _ h

theorem pystrip_nil_imp_all (l : List Char) (h : pystrip_chars l = []) :
    ∀ c ∈ l, pySpace c = true := by
  unfold pystrip_chars at h
  have h1 : (l.dropWhile pySpace).reverse.dropWhile pySpace = [] := by
    simpa using congrArg List.reverse h
  have h2 := List.dropWhile_eq_nil_iff.mp h1
  intro c hc
  have hsplit : c ∈ l.takeWhile pySpace ++ l.dropWhile pySpace := by
    rw [List.takeWhile_append_dropWhile]; exact hc
  rcases List.mem_append.mp hsplit with h3 | h3
  · exact List.mem_takeWhile_imp h3
  · exact h2 c (List.mem_reverse.mpr h3)

theorem mk_ne_empty (c : Char) (l : List Char) : (⟨c :: l⟩ : String) ≠ "" := by
  intro h
  have h2 := congrArg String.data h
  simp at h2

theorem limpiar_ne_empty (s : String) (h : pystrip_chars s.data ≠ []) :
    limpiar_texto s ≠ "" := by
  rcases hx : pystrip_chars s.data with _ | ⟨c, rest⟩
  · exact absurd hx h
  · have hc : pySpace c = false := pystrip_head_false s.data c (by rw [hx]; rfl)
    simp only [limpiar_texto, hx, collapse, collapse_go, hc]
    simp only [Bool.false_eq_true, if_false, List.map_cons]
    exact mk_ne_empty _ _

theorem dropWhile_eq_self_of_head (p : Char → Bool) (l : List Char)
    (h : ∀ c, l.head? = some c → p c = false) : l.dropWhile p = l := by
  rcases l with _ | ⟨a, t⟩
  · rfl
  · rw [List.dropWhile_cons, if_neg]
    simp [h a rfl]

theorem pystrip_idem (l : List Char) :
    pystrip_chars (pystrip_chars l) = pystrip_chars l := by
  show (((pystrip_chars l).dropWhile pySpace).reverse.dropWhile pySpace).reverse =
    pystrip_chars l
  rw [dropWhile_eq_self_of_head pySpace (pystrip_chars l)
    (fun c hc => pystrip_head_false l c hc)]
  rw [dropWhile_eq_self_of_head pySpace (pystrip_chars l).reverse
    (fun c hc => pystrip_getLast_false l c (by rwa [List.head?_reverse] at hc))]
  rw [List.reverse_reverse]

theorem ciLit_suffix {w : String} {x y : List Char} (h : ciLit w x = some y) :
    y <:+ x := by
  unfold ciLit at h
  split_ifs at h
  cases h
  exact List.drop_suffix _ _

theorem ws1_suffix {x y : List Char} (h : ws1 x = some y) : y <:+ x := by
  unfold ws1 at h
  split_ifs at h
  cases h
  exact List.dropWhile_suffix _

theorem ws1_result {y r : List Char} (hws : ws1 y = some r) :
    r = y.dropWhile pySpace ∧ y.takeWhile pySpace ≠ [] := by
  unfold ws1 at hws
  split_ifs at hws with h
  cases hws
  exact ⟨rfl, h⟩

theorem suffix_getLast? {x y : List Char} (h : y <:+ x) (hy : y ≠ []) :
    x.getLast? = y.getLast? := by
  obtain ⟨t, rfl⟩ := h
  rw [List.getLast?_append]
  rcases hg : y.getLast? with _ | c
  · rw [List.getLast?_eq_none_iff] at hg; exact absurd hg hy
  · rfl

theorem suffix_strip_ne (x r : List Char) (hsuf : r <:+ x) (hne : r ≠ [])
    (hlast : ∀ c, x.getLast? = some c → pySpace c = false) :
    pystrip_chars r ≠ [] := by
  intro hnil
  rcases hg : r.getLast? with _ | c
  · rw [List.getLast?_eq_none_iff] at hg; exact hne hg
  · have hx : x.getLast? = some c := by rw [suffix_getLast? hsuf hne, hg]
    have hc1 : pySpace c = false := hlast c hx
    have hc2 : pySpace c = true :=
      pystrip_nil_imp_all r hnil c (List.mem_of_getLast?_eq_some hg)
    simp [hc1] at hc2

theorem ws1_chain_ne {x y r : List Char} (hsuf : y <:+ x) (hws : ws1 y = some r)
    (hlast : ∀ c, x.getLast? = some c → pySpace c = false) :
    r <:+ x ∧ r ≠ [] := by
  obtain ⟨hr, hy⟩ := ws1_result hws
  have hrs : r <:+ x := by
    rw [hr]
    exact (List.dropWhile_suffix pySpace).trans hsuf
  refine ⟨hrs, ?_⟩
  intro hnil
  rw [hnil] at hr
  have hally := List.dropWhile_eq_nil_iff.mp hr.symm
  have hyne : y ≠ [] := by
    intro h0
    rw [h0] at hy
    simp at hy
  rcases hg : y.getLast? with _ | c
  · rw [List.getLast?_eq_none_iff] at hg; exact hyne hg
  · have hc1 := hlast c (by rw [suffix_getLast? hsuf hyne, hg])
    have hc2 := hally c (List.mem_of_getLast?_eq_some hg)
    simp [hc1] at hc2

theorem tituloKeyword_ne_nil {x : List Char} (h : tituloKeyword x = true) : x ≠ [] := by
  intro h0
  rw [h0] at h
  exact absurd h (by decide)

/-- C8.  The extracted title is never empty: the keyword branch strips
the filler prefix from a stripped line whose last character is
non-whitespace, so a non-blank remainder always survives cleaning; the
fallback branch cleans a stripped line of length > 10; and when both
searches fail the explicit sentinel "Título no identificado" is
returned. -/
theorem c8_titulo_nonempty (contenido : String) :
    extraer_titulo contenido ≠ "" ∧
    ((split_nl contenido).find? (fun l => tituloKeyword (pystrip l).data) = none →
      ((split_nl contenido).take 10).find?
          (fun l => (pystrip l).data.length > 10 && isupperPy (pystrip l).data) = none →
      extraer_titulo contenido = "Título no identificado") := by
  constructor
  · unfold extraer_titulo
    rcases h1 : (split_nl contenido).find? (fun l => tituloKeyword (pystrip l).data)
      with _ | l
    · rcases h2 : ((split_nl contenido).take 10).find?
          (fun l => (pystrip l).data.length > 10 && isupperPy (pystrip l).data) with _ | l
      · simp only [h1, h2]
        decide
      · simp only [h1, h2]
        have hcond := List.find?_some h2
        rw [Bool.and_eq_true] at hcond
        have hlen : (pystrip l).data.length > 10 := of_decide_eq_true hcond.1
        apply limpiar_ne_empty
        show pystrip_chars (pystrip_chars l.data) ≠ []
        rw [pystrip_idem]
        intro h0
        have hdata : (pystrip l).data = pystrip_chars l.data := rfl
        rw [hdata, h0] at hlen
        simp at hlen
    · simp only [h1]
      have hkw := List.find?_some h1
      apply limpiar_ne_empty
      have hlast : ∀ c, (pystrip l).data.getLast? = some c → pySpace c = false :=
        fun c hc => pystrip_getLast_false l.data c hc
      unfold tituloSub
      rcases halt1 : ((ciLit "LEY" (pystrip l).data).bind ws1 |>.bind (ciLit "DE")
          |>.bind ws1 |>.bind (ciLit "INGRESOS") |>.bind ws1 |>.bind (ciLit "DEL")
          |>.bind ws1) with _ | r
      · rcases halt2 : (ciLit "LEY" (pystrip l).data).bind ws1 with _ | r
        · simp only [halt1, halt2]
          show pystrip_chars (pystrip_chars l.data) ≠ []
          rw [pystrip_idem]
          exact tituloKeyword_ne_nil hkw
        · obtain ⟨y1, e1, f1⟩ := Option.bind_eq_some.mp halt2
          obtain ⟨hrs, hrne⟩ := ws1_chain_ne (ciLit_suffix e1) f1 hlast
          simp only [halt1, halt2]
          exact suffix_strip_ne (pystrip l).data r hrs hrne hlast
      · obtain ⟨y1, e1, f1⟩ := Option.bind_eq_some.mp halt1
        obtain ⟨y2, e2, f2⟩ := Option.bind_eq_some.mp e1
        obtain ⟨y3, e3, f3⟩ := Option.bind_eq_some.mp e2
        obtain ⟨y4, e4, f4⟩ := Option.bind_eq_some.mp e3
        obtain ⟨y5, e5, f5⟩ := Option.bind_eq_some.mp e4
        obtain ⟨y6, e6, f6⟩ := Option.bind_eq_some.mp e5
        obtain ⟨y7, e7, f7⟩ := Option.bind_eq_some.mp e6
        have s7 : y7 <:+ (pystrip l).data := ciLit_suffix e7
        have s6 : y6 <:+ (pystrip l).data := (ws1_suffix f7).trans s7
        have s5 : y5 <:+ (pystrip l).data := (ciLit_suffix f6).trans s6
        have s4 : y4 <:+ (pystrip l).data := (ws1_suffix f5).trans s5
        have s3 : y3 <:+ (pystrip l).data := (ciLit_suffix f4).trans s4
        have s2 : y2 <:+ (pystrip l).data := (ws1_suffix f3).trans s3
        have s1 : y1 <:+ (pystrip l).data := (ciLit_suffix f2).trans s2
        obtain ⟨hrs, hrne⟩ := ws1_chain_ne s1 f1 hlast
        simp only [halt1]
        exact suffix_strip_ne (pystrip l).data r hrs hrne hlast
  · intro h1 h2
    unfold extraer_titulo
    simp only [h1, h2]

/-- Witness for C8: on the empty document both searches fail and the
sentinel is returned, which is non-empty. -/
theorem c8_titulo_nonempty_witness :
    extraer_titulo "" ≠ "" ∧ extraer_titulo "" = "Título no identificado" :=
  ⟨(c8_titulo_nonempty "").1, (c8_titulo_nonempty "").2 (by decide) (by decide)⟩

/-- Witness for C4: the amended classification evaluated at a concrete
header line. -/
theorem c4_chapter_header_classification_witness :
    capituloMatch "CAPÍTULO IV".data = amendedChapterHeader "CAPÍTULO IV" :=
  c4_chapter_header_classification "CAPÍTULO IV"

/-- Witness for C7: the bound evaluated at a concrete document. -/
theorem c7_decreto_line_bound_witness : (decreto_lines "hola\nmundo").length ≤ 11 :=
  c7_decreto_line_bound "hola\nmundo"

/-- Witness for C10: the flush step at a concrete open article with no
accumulated text. -/
theorem c10_bodyless_header_dropped_witness : art_flush (some 3) [] = [] :=
  c10_bodyless_header_dropped.1 3
